import Mathlib

/-!
Shallow embedding of the session/tab lifecycle core of the r2web repository:
the binary cache loader (`initializeWasmer` in `src/src/main.tsx`), the stream
wiring (`connectStreams`, `restartSession` and the stdout/stderr sinks in the
multi-tab page), and the tab manager (open/close/select/shortcut handlers).
Machine integers never overflow here (byte values, list indices); bytes are
modelled as `Nat`, JS numbers used for progress as `ℚ`, fallible effects as
explicit traces or `Except`.
-/

namespace R2Web

/-- Model of `TextEncoder.encode` for a single character (UTF-8). -/
def utf8EncodeChar (c : Char) : List Nat :=
  let n := c.toNat
  if n < 0x80 then [n]
  else if n < 0x800 then
    [0xC0 + n / 64, 0x80 + n % 64]
  else if n < 0x10000 then
    [0xE0 + n / 4096, 0x80 + (n / 64) % 64, 0x80 + n % 64]
  else
    [0xF0 + n / 262144, 0x80 + (n / 4096) % 64, 0x80 + (n / 64) % 64, 0x80 + n % 64]

/-- Model of `new TextEncoder().encode(s)`: UTF-8 bytes of a string. -/
def utf8Encode (s : String) : List Nat :=
  (s.data.map utf8EncodeChar).flatten

/-! ## Binary cache loader (`initializeWasmer`, src/src/main.tsx lines 57-138) -/

/-- The four download phases of the progress UI. -/
inductive Phase
  | initializing
  | downloading
  | processing
  | complete
deriving DecidableEq, Repr

/-- Observable effects performed by `initializeWasmer`, in program order:
phase updates, progress updates, each chunk read from the response body,
`Wasmer.fromWasm`/`setPkg` (identified by the byte buffer it was built from),
the cache write, and the `isDownloading` flag updates. -/
inductive LoadEvent
  | setPhase (p : Phase)
  | setProgress (q : ℚ)
  | readChunk (c : List Nat)
  | setPkg (buf : List Nat)
  | cachePut (key : String) (buf : List Nat)
  | setDownloading (b : Bool)
deriving DecidableEq, Repr

/-- A fetched `Response`: the parsed `content-length` header (none when the
header is absent or unparsable) and the body chunks (`none` models a null
`response.body`, in which case no reader is obtained). -/
structure FetchResponse where
  contentLength : Option Nat
  body : Option (List (List Nat))
deriving DecidableEq, Repr

/-- `contentLength ? parseInt(contentLength, 10) : 0`. -/
def respTotal (resp : FetchResponse) : Nat :=
  match resp.contentLength with
  | some n => n
  | none => 0

/-- The chunks delivered by `response.body?.getReader()`; a null body yields
no reader and hence no chunks. -/
def respChunks (resp : FetchResponse) : List (List Nat) :=
  match resp.body with
  | some cs => cs
  | none => []

/-- `cache.match(version)`: look the version key up in the cache store. -/
def cacheMatch (cache : List (String × List Nat)) (key : String) : Option (List Nat) :=
  (cache.find? (fun e => e.1 = key)).map (fun e => e.2)

/-- `cache.put(version, response)`: replace or append the entry for a key. -/
def cachePutOp (cache : List (String × List Nat)) (key : String) (buf : List Nat) :
    List (String × List Nat) :=
  cache.filter (fun e => e.1 ≠ key) ++ [(key, buf)]

/-- Model of `Math.min` on the (finite) numbers that occur here. -/
def jsMin (a b : ℚ) : ℚ := if a ≤ b then a else b

/-- The `while (true) { reader.read() }` loop: for each chunk, record the read
and, when the declared total is positive, a progress update
`Math.min(30 + (loaded/total)*50, 80)` with `loaded` the running byte count. -/
def downloadLoop (total : Nat) : Nat → List (List Nat) → List LoadEvent
  | _, [] => []
  | loaded, c :: cs =>
    let loaded2 := loaded + c.length
    (LoadEvent.readChunk c ::
      (if 0 < total then
        [LoadEvent.setProgress (jsMin (30 + ((loaded2 : ℚ) / (total : ℚ)) * 50) 80)]
      else [])) ++ downloadLoop total loaded2 cs

/-- Concatenation of the received chunks into one contiguous buffer (the
`new Uint8Array(totalLength)` + offset-`set` loop). -/
def concatChunks : List (List Nat) → List Nat
  | [] => []
  | c :: cs => c ++ concatChunks cs

/-- Result of one `initializeWasmer` run: the trace of observable effects, the
final cache store, and the module instance (identified by its source bytes)
handed to `setPkg`, if any. -/
structure LoadResult where
  events : List LoadEvent
  cache : List (String × List Nat)
  pkg : Option (List Nat)
deriving DecidableEq, Repr

/-- Shallow embedding of `initializeWasmer` (src/src/main.tsx lines 57-138).
Inputs: the requested version, the `cache=true` flag, the initial cache store,
and the outcome of `fetch(wasmUrl)` (`.error` models a thrown fetch). On a
cache hit the module is built from the cached bytes and the function returns.
On a miss the progress UI is driven, the body is read chunk by chunk, the
chunks are concatenated, the module is built, and only then — when requested —
the buffer is written to the cache. -/
def initializeWasmer (version : String) (doCache : Bool)
    (cache : List (String × List Nat)) (fetched : Except Unit FetchResponse) :
    LoadResult :=
  match cacheMatch cache version with
  | some buffer => ⟨[LoadEvent.setPkg buffer], cache, some buffer⟩
  | none =>
    let pre : List LoadEvent :=
      [LoadEvent.setPhase Phase.initializing, LoadEvent.setDownloading true,
       LoadEvent.setProgress 10, LoadEvent.setPhase Phase.downloading,
       LoadEvent.setProgress 30]
    match fetched with
    | Except.error _ => ⟨pre ++ [LoadEvent.setDownloading false], cache, none⟩
    | Except.ok resp =>
      let total := respTotal resp
      let chunks := respChunks resp
      let buffer := concatChunks chunks
      let afterLoop := pre ++ downloadLoop total 0 chunks ++
        [LoadEvent.setPhase Phase.processing, LoadEvent.setProgress 85,
         LoadEvent.setProgress 90, LoadEvent.setPkg buffer, LoadEvent.setProgress 95]
      if doCache then
        ⟨afterLoop ++ [LoadEvent.cachePut version buffer] ++
           [LoadEvent.setProgress 100, LoadEvent.setPhase Phase.complete,
            LoadEvent.setDownloading false],
         cachePutOp cache version buffer, some buffer⟩
      else
        ⟨afterLoop ++
           [LoadEvent.setProgress 100, LoadEvent.setPhase Phase.complete,
            LoadEvent.setDownloading false],
         cache, some buffer⟩

/-- The progress values reported along a trace, in order. -/
def progressEvents (evs : List LoadEvent) : List ℚ :=
  evs.filterMap (fun e => match e with | LoadEvent.setProgress q => some q | _ => none)

/-- The phase transitions reported along a trace, in order. -/
def phaseEvents (evs : List LoadEvent) : List Phase :=
  evs.filterMap (fun e => match e with | LoadEvent.setPhase p => some p | _ => none)

/-- Whether an event is a chunk read. -/
def isReadChunk : LoadEvent → Prop
  | LoadEvent.readChunk _ => True
  | _ => False

/-- Whether an event is a cache write. -/
def isCachePut : LoadEvent → Prop
  | LoadEvent.cachePut _ _ => True
  | _ => False

/-- Whether an event is the module construction. -/
def isSetPkg : LoadEvent → Prop
  | LoadEvent.setPkg _ => True
  | _ => False

/-! ## Stream wiring (`connectStreams` `onData`, src/unnamed/part_000 lines 129-163) -/

/-- Per-tab wiring state visible to the `term.onData` handler: whether a
`cancelController` object is currently held (the in-flight marker), the
byte packets written to the process stdin so far, and the strings echoed
to the terminal so far. -/
structure WiringState where
  cancelController : Bool
  stdinWrites : List (List Nat)
  termWrites : List String
deriving DecidableEq, Repr

/-- Shallow embedding of the `term.onData` callback registered by
`connectStreams` (src/unnamed/part_000 lines 129-163). `promptResult` is the
return value of the synchronous `prompt("Enter address:")` (`none` models
cancel). `"\x03"` (Ctrl+C) fires only while a controller is held: it drops the
controller, echoes `"^C\r"` and writes one encoded carriage return to stdin.
`"\x07"` (Ctrl+G) or `"G"` opens the prompt and, on a truthy (non-empty)
answer, writes the seek command and a carriage return. Every other data value
allocates a fresh controller and is forwarded UTF-8 encoded to stdin. -/
def onData (promptResult : Option String) (st : WiringState) (data : String) :
    WiringState :=
  if data = "\x03" then
    if st.cancelController then
      { cancelController := false,
        stdinWrites := st.stdinWrites ++ [utf8Encode "\r"],
        termWrites := st.termWrites ++ ["^C\r"] }
    else st
  else if data = "\x07" ∨ data = "G" then
    match promptResult with
    | some address =>
      if address = "" then st
      else
        { st with stdinWrites :=
            st.stdinWrites ++ [utf8Encode ("s " ++ address), utf8Encode "\r"] }
    | none => st
  else
    { st with cancelController := true,
              stdinWrites := st.stdinWrites ++ [utf8Encode data] }

/-- The stdin packets added by handling one input event (everything after the
writes already present in the starting state). -/
def stdinDelta (promptResult : Option String) (st : WiringState) (data : String) :
    List (List Nat) :=
  (onData promptResult st data).stdinWrites.drop st.stdinWrites.length

/-! ## Output sinks (stdoutStream / stderrStream, src/unnamed/part_000 lines 165-195) -/

/-- The inline error line echoed when a stdout chunk write throws. -/
def stdoutErrLine : List Nat := utf8Encode "\r\nError: Failed to write to stdout\r\n"

/-- The inline error line echoed when a stderr chunk write throws. -/
def stderrErrLine : List Nat := utf8Encode "\r\nError: Failed to write to stderr\r\n"

/-- One invocation of the `WritableStream` `write` callback. `wfail c = true`
models `term.write c` throwing. A failing chunk write is caught and the error
line is written instead; the `Bool` result tells whether the callback returned
normally (`false` means an exception escaped, erroring the stream). -/
def streamWrite (wfail : List Nat → Bool) (errLine : List Nat)
    (term : List (List Nat)) (chunk : List Nat) : List (List Nat) × Bool :=
  if wfail chunk then
    if wfail errLine then (term, false) else (term ++ [errLine], true)
  else (term ++ [chunk], true)

/-- `source.pipeTo(stream)`: deliver the chunks in order to the write
callback, stopping only if a callback lets an exception escape. Returns the
final terminal contents and whether the stream is still open. -/
def pipeTo (wfail : List Nat → Bool) (errLine : List Nat) :
    List (List Nat) → List (List Nat) → List (List Nat) × Bool
  | term, [] => (term, true)
  | term, c :: cs =>
    let r := streamWrite wfail errLine term c
    if r.2 then pipeTo wfail errLine r.1 cs else (r.1, false)

/-! ## restartSession (src/unnamed/part_000 lines 36-74) -/

/-- Observable steps of one `restartSession` run, in program order. The
`Bool` on `writerClose` / `instanceFree` records whether the underlying
release threw (the exception is swallowed either way). -/
inductive RestartEvent
  | termWrite (s : String)
  | termWriteln (s : String)
  | writerClose (failed : Bool)
  | instanceFree (failed : Bool)
  | setDir
  | runInstance (args : List String)
  | setInstance
  | connect
deriving DecidableEq, Repr

/-- Whether a restart event is the close of the previous stdin writer. -/
def isWriterClose : RestartEvent → Prop
  | RestartEvent.writerClose _ => True
  | _ => False

/-- Shallow embedding of `restartSession` (src/unnamed/part_000 lines 36-74)
as its trace of observable steps. `hasPkg`/`hasTerm` model the `pkg` and
`termInstance` null checks, `file` the `fileStore.getFile()` result,
`hasWriter`/`hasInstance` whether a previous stdin writer / process instance
exists (optional chaining skips the release otherwise), and
`closeFails`/`freeFails` whether the respective release throws. -/
def restartSession (hasPkg hasTerm : Bool) (file : Option String)
    (hasWriter hasInstance : Bool) (closeFails freeFails : Bool) :
    List RestartEvent :=
  if !hasPkg || !hasTerm then []
  else
    match file with
    | none => [RestartEvent.termWriteln "Error: No file provided"]
    | some name =>
      [RestartEvent.termWrite "\x1b[A", RestartEvent.termWrite "\x1b[2K",
       RestartEvent.termWrite "\r", RestartEvent.termWriteln "Restarting session..."]
      ++ (if hasWriter then [RestartEvent.writerClose closeFails] else [])
      ++ (if hasInstance then [RestartEvent.instanceFree freeFails] else [])
      ++ [RestartEvent.setDir, RestartEvent.runInstance [name],
          RestartEvent.setInstance, RestartEvent.connect]

/-! ## Tab manager (src/unnamed/part_000 lines 406-436 and 652-679) -/

/-- The tab registry: the ordered list of tab identifiers and the active
identifier. `none` models both the `-1` sentinel stored by the close handler
and the `undefined` produced by an out-of-range indexing — observationally
equal here: no tab button matches, `tabs.indexOf` gives `-1`, and the ref
lookup misses. -/
structure TabState where
  tabs : List Nat
  active : Option Nat
deriving DecidableEq, Repr

/-- The initial registry: one tab `0`, active. -/
def initTabState : TabState := ⟨[0], some 0⟩

/-- Index of the first occurrence of a value in a list, `none` when absent
(the option-valued core of `Array.prototype.indexOf`). -/
def idxOf? : List Nat → Nat → Option Nat
  | [], _ => none
  | a :: as, x => if a = x then some 0 else (idxOf? as x).map (fun i => i + 1)

/-- `list.indexOf(x)` as a JS number: the first index, or `-1` when absent. -/
def jsIndexOf (l : List Nat) (x : Nat) : Int :=
  match idxOf? l x with
  | some i => (i : Int)
  | none => -1

/-- The close handler (src/unnamed/part_000 lines 652-665): remove the tab
from the list; when it was active, the new active tab is
`remaining[Math.max(0, idx - 1)]` (`-1`, i.e. `none`, when no tab remains).
`Int.toNat (idx - 1)` is exactly `Math.max(0, idx - 1)` for the integer
`idx = prev.indexOf(id)`. -/
def closeTab (st : TabState) (id : Nat) : TabState :=
  let idx := jsIndexOf st.tabs id
  let remaining := st.tabs.filter (fun tid => tid ≠ id)
  if st.active = some id then
    if remaining.isEmpty then ⟨remaining, none⟩
    else ⟨remaining, remaining.get? (Int.toNat (idx - 1))⟩
  else ⟨remaining, st.active⟩

/-- The id the open handler assigns next: `Math.max(...prev) + 1`, or `0`
when no tab is open. -/
def openNextId (st : TabState) : Nat :=
  if st.tabs.isEmpty then 0 else st.tabs.foldl max 0 + 1

/-- The open handler (src/unnamed/part_000 lines 669-679): append the next id
and make it active. -/
def openTab (st : TabState) : TabState :=
  ⟨st.tabs ++ [openNextId st], some (openNextId st)⟩

/-- Clicking a tab button: `setActiveTab(id)` (rendered only for members). -/
def selectTab (st : TabState) (id : Nat) : TabState :=
  ⟨st.tabs, some id⟩

/-- The Alt+digit shortcut (src/unnamed/part_000 lines 412-418):
`idx = Math.min(num - 1, tabs.length - 1)`, then `setActiveTab(tabs[idx])`
(out-of-range indexing yields `undefined`, modelled `none`). -/
def numericShortcut (st : TabState) (num : Nat) : TabState :=
  if 1 ≤ num ∧ num ≤ 9 then
    if st.tabs.isEmpty then ⟨st.tabs, none⟩
    else ⟨st.tabs, st.tabs.get? (min (num - 1) (st.tabs.length - 1))⟩
  else st

/-- `tabs.indexOf(activeTab)` as a JS number (`-1` when the active sentinel
is `-1`/`undefined` or the id is not listed). -/
def activeIndex (st : TabState) : Int :=
  match st.active with
  | some a => jsIndexOf st.tabs a
  | none => -1

/-- The Alt+ArrowRight shortcut (lines 419-424): cyclic move to the next tab.
On an empty list JS indexes with `NaN` and stores `undefined` (`none`). -/
def nextTab (st : TabState) : TabState :=
  if st.tabs.isEmpty then ⟨st.tabs, none⟩
  else
    let k := ((activeIndex st + 1) % (st.tabs.length : Int)).toNat
    ⟨st.tabs, st.tabs.get? k⟩

/-- The Alt+ArrowLeft shortcut (lines 425-431): cyclic move to the previous
tab, via `(curIndex - 1 + len) % len`. -/
def prevTab (st : TabState) : TabState :=
  if st.tabs.isEmpty then ⟨st.tabs, none⟩
  else
    let k := ((activeIndex st - 1 + (st.tabs.length : Int)) % (st.tabs.length : Int)).toNat
    ⟨st.tabs, st.tabs.get? k⟩

/-- The tab-registry operations reachable from the UI. -/
inductive TabOp
  | openOp
  | closeOp (id : Nat)
  | selectOp (id : Nat)
  | numericOp (num : Nat)
  | nextOp
  | prevOp
deriving DecidableEq, Repr

/-- One UI event applied to the registry. -/
def applyOp (st : TabState) (op : TabOp) : TabState :=
  match op with
  | TabOp.openOp => openTab st
  | TabOp.closeOp id => closeTab st id
  | TabOp.selectOp id => selectTab st id
  | TabOp.numericOp num => numericShortcut st num
  | TabOp.nextOp => nextTab st
  | TabOp.prevOp => prevTab st

/-- Whether the UI can emit this event in this state: close buttons and tab
buttons exist only for tabs currently in the list. -/
def opValid (st : TabState) (op : TabOp) : Bool :=
  match op with
  | TabOp.closeOp id => decide (id ∈ st.tabs)
  | TabOp.selectOp id => decide (id ∈ st.tabs)
  | _ => true

/-- Run a sequence of UI events from a state, skipping events the UI could
not emit. -/
def applyOps (st : TabState) (ops : List TabOp) : TabState :=
  ops.foldl (fun s op => if opValid s op then applyOp s op else s) st

/-- Registry consistency: distinct identifiers, `none` exactly on the empty
set, and otherwise an active identifier that is a member. -/
def tabInv (st : TabState) : Prop :=
  st.tabs.Nodup ∧
  (st.tabs = [] → st.active = none) ∧
  (st.tabs ≠ [] → ∃ a, st.active = some a ∧ a ∈ st.tabs)

/-! ## Input-handler registry (`onDataDisposableRef`, src/unnamed/part_000
lines 121-163) -/

/-- The keystroke handlers ever attached to one tab's terminal: each carries
the id of the process instance whose stdin it forwards to and whether it is
still attached. `stored` is the index of the disposable currently held in
`onDataDisposableRef`. -/
structure HandlerState where
  handlers : List (Nat × Bool)
  stored : Option Nat
deriving DecidableEq, Repr

/-- No handler attached yet (`onDataDisposableRef.current` null). -/
def initHandlerState : HandlerState := ⟨[], none⟩

/-- One `connectStreams` call for instance `instId` (src/unnamed/part_000
lines 121-163): first `onDataDisposableRef.current?.dispose()` detaches the
stored handler, then `term.onData` attaches a fresh handler bound to the new
instance's stdin and the ref is repointed at it. -/
def connectStreamsReg (st : HandlerState) (instId : Nat) : HandlerState :=
  let disposed :=
    match st.stored with
    | some i =>
      match st.handlers.get? i with
      | some h => st.handlers.set i (h.1, false)
      | none => st.handlers
    | none => st.handlers
  ⟨disposed ++ [(instId, true)], some disposed.length⟩

/-- The stdin targets a keystroke reaches: the instance ids of the handlers
still attached. -/
def forwardTargets (st : HandlerState) : List Nat :=
  (st.handlers.filter (fun h => h.2)).map (fun h => h.1)

end R2Web

/-! ## Theorems -/

namespace R2Web

/-- Helper: appending to the stdin log and dropping its old length leaves the
newly appended packets. -/
theorem drop_length_append {α : Type} (l m : List α) : (l ++ m).drop l.length = m := by
  simp

/-- Helper: the interrupt data value writes either nothing or exactly one
encoded carriage return. -/
theorem stdinDelta_interrupt (pr : Option String) (st : WiringState) :
    stdinDelta pr st "\x03" =
      (if st.cancelController then [utf8Encode "\r"] else []) := by
  by_cases h : st.cancelController
  · simp [stdinDelta, onData, h, drop_length_append]
  · simp [stdinDelta, onData, h]

/-- Helper: the prompt-opening data values write either nothing or a seek
command followed by an encoded carriage return. -/
theorem stdinDelta_prompt (pr : Option String) (st : WiringState) (d : String)
    (hd : d = "\x07" ∨ d = "G") :
    stdinDelta pr st d =
      (match pr with
       | some address =>
         if address = "" then []
         else [utf8Encode ("s " ++ address), utf8Encode "\r"]
       | none => []) := by
  have hne : d ≠ "\x03" := by rcases hd with h | h <;> subst h <;> decide
  rcases pr with _ | address
  · simp [stdinDelta, onData, hne, hd]
  · by_cases ha : address = ""
    · simp [stdinDelta, onData, hne, hd, ha]
    · simp [stdinDelta, onData, hne, hd, ha, drop_length_append]

/-- Helper: a seek command starts with the byte of `s`, so it is never the
raw byte of an intercepted keystroke. -/
theorem utf8Encode_seek (address : String) :
    utf8Encode ("s " ++ address) = 115 :: utf8Encode (" " ++ address) := by
  simp [utf8Encode, String.data_append, utf8EncodeChar]

end R2Web

namespace R2Web

/-- C2: pressing the interrupt key (0x03) writes a carriage return to stdin
iff the in-flight marker is set, in which case exactly one encoded carriage
return is appended, `^C` is echoed, and the marker is cleared; while the
marker is clear the interrupt is a no-op; every regular (non-intercepted)
keystroke sets the marker before writing. -/
theorem c2_interrupt_gating (pr : Option String) (st : WiringState) :
    (st.cancelController = true →
      onData pr st "\x03" =
        ⟨false, st.stdinWrites ++ [utf8Encode "\r"], st.termWrites ++ ["^C\r"]⟩) ∧
    (st.cancelController = false → onData pr st "\x03" = st) ∧
    (∀ d : String, d ≠ "\x03" → d ≠ "\x07" → d ≠ "G" →
      (onData pr st d).cancelController = true ∧
      (onData pr st d).stdinWrites = st.stdinWrites ++ [utf8Encode d]) := by
  refine ⟨?_, ?_, ?_⟩
  · intro h
    simp [onData, h]
  · intro h
    simp [onData, h]
  · intro d h1 h2 h3
    simp [onData, h1, h2, h3]

/-- C2 witness: at a concrete state with the marker set, the interrupt writes
exactly one carriage return and echoes the indicator; with the marker clear
it is a no-op. -/
theorem c2_interrupt_gating_witness :
    onData none ⟨true, [], []⟩ "\x03" = ⟨false, [utf8Encode "\r"], ["^C\r"]⟩ ∧
    onData none ⟨false, [], []⟩ "\x03" = ⟨false, [], []⟩ :=
  ⟨(c2_interrupt_gating none ⟨true, [], []⟩).1 rfl,
   (c2_interrupt_gating none ⟨false, [], []⟩).2.1 rfl⟩

/-- C6 counterexample: the data value `G` is neither the interrupt key 0x03
nor the address-jump key 0x07, yet the handler intercepts it: nothing is
forwarded to stdin, contradicting the claim that only two keystrokes are
intercepted. -/
theorem c6_counterexample :
    ("G" ≠ "\x03" ∧ "G" ≠ "\x07") ∧
    (onData none ⟨false, [], []⟩ "G").stdinWrites = [] ∧
    ([] : List (List Nat)) ≠ [utf8Encode "G"] := by
  refine ⟨by decide, by simp [onData], by decide⟩

/-- C6 (amended): every input event whose data is none of the three
intercepted values 0x03, 0x07 and `G` is forwarded verbatim, UTF-8 encoded,
to stdin; the intercepted values are never forwarded as raw bytes. -/
theorem c6_forwarding (pr : Option String) (st : WiringState) (d : String)
    (h1 : d ≠ "\x03") (h2 : d ≠ "\x07") (h3 : d ≠ "G") :
    (onData pr st d).stdinWrites = st.stdinWrites ++ [utf8Encode d] ∧
    (∀ (q : Option String) (s2 : WiringState),
      utf8Encode "\x03" ∉ stdinDelta q s2 "\x03" ∧
      utf8Encode "\x07" ∉ stdinDelta q s2 "\x07" ∧
      utf8Encode "G" ∉ stdinDelta q s2 "G") := by
  constructor
  · simp [onData, h1, h2, h3]
  · intro q s2
    refine ⟨?_, ?_, ?_⟩
    · rw [stdinDelta_interrupt]
      have h3r : utf8Encode "\x03" = [3] := by decide
      have hr : utf8Encode "\r" = [13] := by decide
      by_cases h : s2.cancelController
      · simp [h, h3r, hr]
      · simp [h]
    · rw [stdinDelta_prompt q s2 _ (Or.inl rfl)]
      rcases q with _ | address
      · simp
      · by_cases ha : address = ""
        · simp [ha]
        · have h7 : utf8Encode "\x07" = [7] := by decide
          have hr : utf8Encode "\r" = [13] := by decide
          simp [ha, utf8Encode_seek, h7, hr]
    · rw [stdinDelta_prompt q s2 _ (Or.inr rfl)]
      rcases q with _ | address
      · simp
      · by_cases ha : address = ""
        · simp [ha]
        · have hG : utf8Encode "G" = [71] := by decide
          have hr : utf8Encode "\r" = [13] := by decide
          simp [ha, utf8Encode_seek, hG, hr]

/-- C6 witness: a concrete ordinary keystroke `p` is forwarded as its UTF-8
byte. -/
theorem c6_forwarding_witness :
    (onData none ⟨false, [], []⟩ "p").stdinWrites = [utf8Encode "p"] :=
  (c6_forwarding none ⟨false, [], []⟩ "p" (by decide) (by decide) (by decide)).1

end R2Web

namespace R2Web

/-- C8: on a cache-miss load of version 6.0.3 with declared content-length
100 delivered in two 50-byte chunks, the reported progress sequence is
exactly 10, 30, 55 (after chunk 1), 80 (after chunk 2), 85, 90, 95, 100 —
matching `min(30 + (loaded/total)*50, 80)` after each chunk — the phases
advance initializing, downloading, processing, complete, and the percent is
monotonically non-decreasing; all of this independently of the cache flag. -/
theorem c8_progress_scenario :
    progressEvents (initializeWasmer "6.0.3" false []
        (Except.ok ⟨some 100, some [List.replicate 50 0, List.replicate 50 1]⟩)).events =
      [10, 30, 55, 80, 85, 90, 95, 100] ∧
    progressEvents (initializeWasmer "6.0.3" true []
        (Except.ok ⟨some 100, some [List.replicate 50 0, List.replicate 50 1]⟩)).events =
      [10, 30, 55, 80, 85, 90, 95, 100] ∧
    phaseEvents (initializeWasmer "6.0.3" false []
        (Except.ok ⟨some 100, some [List.replicate 50 0, List.replicate 50 1]⟩)).events =
      [Phase.initializing, Phase.downloading, Phase.processing, Phase.complete] ∧
    phaseEvents (initializeWasmer "6.0.3" true []
        (Except.ok ⟨some 100, some [List.replicate 50 0, List.replicate 50 1]⟩)).events =
      [Phase.initializing, Phase.downloading, Phase.processing, Phase.complete] ∧
    List.Chain' (fun a b => a ≤ b) ([10, 30, 55, 80, 85, 90, 95, 100] : List ℚ) := by
  refine ⟨?_, ?_, ?_, ?_, ?_⟩ <;>
    norm_num [initializeWasmer, cacheMatch, respTotal, respChunks, downloadLoop,
      progressEvents, phaseEvents, jsMin, concatChunks, List.filterMap_cons,
      List.chain'_cons]

/-- C3 counterexample: on a restart with a previous writer and instance
present, the `Restarting session...` banner is written at trace index 3 while
the close of the previous stdin writer happens at index 4 and nowhere
earlier — so the close does not precede the banner as claimed. -/
theorem c3_counterexample :
    (restartSession true true (some "a.bin") true true false false).get? 3 =
      some (RestartEvent.termWriteln "Restarting session...") ∧
    (restartSession true true (some "a.bin") true true false false).get? 4 =
      some (RestartEvent.writerClose false) ∧
    ∀ i < 4, ∀ b, (restartSession true true (some "a.bin") true true false false).get? i ≠
      some (RestartEvent.writerClose b) := by
  refine ⟨by decide, by decide, ?_⟩
  decide

/-- C3 (amended): on every restart with a module, a terminal, a selected
file, and a previous writer and instance, the previous stdin writer is
closed (index 4) and the previous process handle freed (index 5) immediately
AFTER the `Restarting session...` banner (index 3); whether either release
throws is recorded but swallowed: the run always proceeds to create the new
directory, run the new process, store it and reconnect the streams. -/
theorem c3_restart_release_order (file : String) (cf ff : Bool) :
    (restartSession true true (some file) true true cf ff).get? 3 =
      some (RestartEvent.termWriteln "Restarting session...") ∧
    (restartSession true true (some file) true true cf ff).get? 4 =
      some (RestartEvent.writerClose cf) ∧
    (restartSession true true (some file) true true cf ff).get? 5 =
      some (RestartEvent.instanceFree ff) ∧
    (restartSession true true (some file) true true cf ff).drop 6 =
      [RestartEvent.setDir, RestartEvent.runInstance [file],
       RestartEvent.setInstance, RestartEvent.connect] := by
  refine ⟨?_, ?_, ?_, ?_⟩ <;> simp [restartSession]

/-- Helper for C7: when the inline error line itself writes cleanly, piping
never errors the stream and each chunk lands in order, failed chunks being
replaced by the error line. -/
theorem pipeTo_total (wfail : List Nat → Bool) (errLine : List Nat)
    (h : wfail errLine = false) :
    ∀ (chunks term : List (List Nat)),
      pipeTo wfail errLine term chunks =
        (term ++ chunks.map (fun c => if wfail c then errLine else c), true)
  | [], term => by simp [pipeTo]
  | c :: cs, term => by
    by_cases hc : wfail c = true
    · simp [pipeTo, streamWrite, hc, h, pipeTo_total wfail errLine h cs (term ++ [errLine])]
    · simp only [Bool.not_eq_true] at hc
      simp [pipeTo, streamWrite, hc, pipeTo_total wfail errLine h cs (term ++ [c])]

/-- C7: whenever the inline error line itself can be written, a failing
terminal write for one stdout or stderr chunk is caught, replaced inline by
the error line, and does not close the stream: every subsequent chunk of the
same stream is still processed, in arrival order. -/
theorem c7_output_errors (wfail : List Nat → Bool) (term chunks : List (List Nat))
    (h1 : wfail stdoutErrLine = false) (h2 : wfail stderrErrLine = false) :
    pipeTo wfail stdoutErrLine term chunks =
      (term ++ chunks.map (fun c => if wfail c then stdoutErrLine else c), true) ∧
    pipeTo wfail stderrErrLine term chunks =
      (term ++ chunks.map (fun c => if wfail c then stderrErrLine else c), true) :=
  ⟨pipeTo_total wfail stdoutErrLine h1 chunks term,
   pipeTo_total wfail stderrErrLine h2 chunks term⟩

/-- C7 witness: with a write failure exactly on chunk `[1]`, the stream stays
open, the error line appears in place of `[1]`, and the following chunk `[2]`
is still written. -/
theorem c7_output_errors_witness :
    pipeTo (fun c => decide (c = [1])) stdoutErrLine [] [[1], [2]] =
      ([stdoutErrLine, [2]], true) := by
  have h := (c7_output_errors (fun c => decide (c = [1])) [] [[1], [2]]
    (by decide) (by decide)).1
  simpa using h

end R2Web

namespace R2Web

/-- Helper: if no event of the right part satisfies P and no event of the
left part satisfies Q, then in the concatenation every P-event index is
strictly below every Q-event index. -/
theorem lt_of_append_split {α : Type} (P Q : α → Prop) (a b : List α)
    (hP : ∀ e ∈ b, ¬P e) (hQ : ∀ e ∈ a, ¬Q e) :
    ∀ i j x y, (a ++ b).get? i = some x → P x → (a ++ b).get? j = some y → Q y → i < j := by
  intro i j x y hi hPx hj hQy
  have hia : i < a.length := by
    by_contra hge
    push_neg at hge
    rw [List.get?_append_right hge] at hi
    exact hP x (List.get?_mem hi) hPx
  by_contra hlt
  push_neg at hlt
  have hja : j < a.length := lt_of_le_of_lt hlt hia
  rw [List.get?_append hja] at hj
  exact hQ y (List.get?_mem hj) hQy

/-- Helper: the download loop emits only chunk reads and progress updates. -/
theorem downloadLoop_events (total : Nat) :
    ∀ (loaded : Nat) (cs : List (List Nat)) (e : LoadEvent),
      e ∈ downloadLoop total loaded cs →
      (∃ c, e = LoadEvent.readChunk c) ∨ (∃ q, e = LoadEvent.setProgress q)
  | _, [], e => by simp [downloadLoop]
  | loaded, c :: cs, e => by
    intro he
    by_cases ht : 0 < total
    · simp [downloadLoop, ht] at he
      rcases he with he | he | he
      · exact Or.inl ⟨c, he⟩
      · exact Or.inr ⟨_, he⟩
      · exact downloadLoop_events total _ cs e he
    · simp [downloadLoop, ht] at he
      rcases he with he | he
      · exact Or.inl ⟨c, he⟩
      · exact downloadLoop_events total _ cs e he

/-- Helper: the download loop never writes the cache. -/
theorem cachePut_not_mem_downloadLoop (total loaded : Nat) (cs : List (List Nat))
    (k : String) (b : List Nat) :
    LoadEvent.cachePut k b ∉ downloadLoop total loaded cs := by
  intro h
  rcases downloadLoop_events total loaded cs _ h with ⟨c, hc⟩ | ⟨q, hq⟩
  · exact LoadEvent.noConfusion hc
  · exact LoadEvent.noConfusion hq

/-- Helper: on a cache miss with a successful fetch the whole run is this
explicit trace, final store, and package. -/
theorem initializeWasmer_ok_eq (version : String) (doCache : Bool)
    (cache : List (String × List Nat)) (resp : FetchResponse)
    (hmiss : cacheMatch cache version = none) :
    initializeWasmer version doCache cache (Except.ok resp) =
      ⟨([LoadEvent.setPhase Phase.initializing, LoadEvent.setDownloading true,
         LoadEvent.setProgress 10, LoadEvent.setPhase Phase.downloading,
         LoadEvent.setProgress 30] ++ downloadLoop (respTotal resp) 0 (respChunks resp) ++
        [LoadEvent.setPhase Phase.processing, LoadEvent.setProgress 85,
         LoadEvent.setProgress 90, LoadEvent.setPkg (concatChunks (respChunks resp)),
         LoadEvent.setProgress 95]) ++
       ((if doCache then [LoadEvent.cachePut version (concatChunks (respChunks resp))]
         else []) ++
        [LoadEvent.setProgress 100, LoadEvent.setPhase Phase.complete,
         LoadEvent.setDownloading false]),
       if doCache then cachePutOp cache version (concatChunks (respChunks resp)) else cache,
       some (concatChunks (respChunks resp))⟩ := by
  by_cases hd : doCache <;> simp [initializeWasmer, hmiss, hd]

end R2Web

namespace R2Web

/-- C1: on every cache-miss load: a thrown fetch aborts the run with the
cache store untouched, no cache-write event and no module handed out (the
caller simply sees no package — no crash); on a successful fetch the module
is always produced, built from the concatenation of all received chunks and
independent of the persist flag; a cache entry — holding exactly the complete
buffer — is written iff `cache=true` was requested; and in the event trace
the cache write comes strictly after every chunk read and strictly after the
module construction. -/
theorem c1_cache_miss_load (version : String) (doCache : Bool)
    (cache : List (String × List Nat)) (fetched : Except Unit FetchResponse)
    (hmiss : cacheMatch cache version = none) :
    (fetched = Except.error () →
      (initializeWasmer version doCache cache fetched).cache = cache ∧
      (initializeWasmer version doCache cache fetched).pkg = none ∧
      ∀ k b, LoadEvent.cachePut k b ∉ (initializeWasmer version doCache cache fetched).events) ∧
    (∀ resp, fetched = Except.ok resp →
      (initializeWasmer version doCache cache fetched).pkg =
        some (concatChunks (respChunks resp)) ∧
      (doCache = true →
        (initializeWasmer version doCache cache fetched).cache =
          cachePutOp cache version (concatChunks (respChunks resp)) ∧
        LoadEvent.cachePut version (concatChunks (respChunks resp)) ∈
          (initializeWasmer version doCache cache fetched).events) ∧
      (doCache = false →
        (initializeWasmer version doCache cache fetched).cache = cache ∧
        ∀ k b, LoadEvent.cachePut k b ∉
          (initializeWasmer version doCache cache fetched).events) ∧
      (∀ i j x y,
        (initializeWasmer version doCache cache fetched).events.get? i = some x →
        isReadChunk x →
        (initializeWasmer version doCache cache fetched).events.get? j = some y →
        isCachePut y → i < j) ∧
      (∀ i j x y,
        (initializeWasmer version doCache cache fetched).events.get? i = some x →
        isSetPkg x →
        (initializeWasmer version doCache cache fetched).events.get? j = some y →
        isCachePut y → i < j)) := by
  constructor
  · intro hf
    subst hf
    refine ⟨by simp [initializeWasmer, hmiss], by simp [initializeWasmer, hmiss], ?_⟩
    intro k b hb
    simp [initializeWasmer, hmiss] at hb
  · intro resp hf
    subst hf
    rw [initializeWasmer_ok_eq version doCache cache resp hmiss]
    have hQ : ∀ e ∈
        ([LoadEvent.setPhase Phase.initializing, LoadEvent.setDownloading true,
          LoadEvent.setProgress 10, LoadEvent.setPhase Phase.downloading,
          LoadEvent.setProgress 30] ++ downloadLoop (respTotal resp) 0 (respChunks resp) ++
         [LoadEvent.setPhase Phase.processing, LoadEvent.setProgress 85,
          LoadEvent.setProgress 90, LoadEvent.setPkg (concatChunks (respChunks resp)),
          LoadEvent.setProgress 95]), ¬ isCachePut e := by
      intro e he hc
      cases e
      case cachePut k b =>
        simp at he
        exact cachePut_not_mem_downloadLoop _ _ _ _ _ he
      all_goals exact hc
    have hPread : ∀ e ∈
        ((if doCache then [LoadEvent.cachePut version (concatChunks (respChunks resp))]
          else []) ++
         [LoadEvent.setProgress 100, LoadEvent.setPhase Phase.complete,
          LoadEvent.setDownloading false]), ¬ isReadChunk e := by
      intro e he hc
      cases e
      case readChunk c =>
        by_cases hd : doCache <;> simp [hd] at he
      all_goals exact hc
    have hPpkg : ∀ e ∈
        ((if doCache then [LoadEvent.cachePut version (concatChunks (respChunks resp))]
          else []) ++
         [LoadEvent.setProgress 100, LoadEvent.setPhase Phase.complete,
          LoadEvent.setDownloading false]), ¬ isSetPkg e := by
      intro e he hc
      cases e
      case setPkg b =>
        by_cases hd : doCache <;> simp [hd] at he
      all_goals exact hc
    refine ⟨rfl, ?_, ?_, ?_, ?_⟩
    · intro hd
      subst hd
      refine ⟨by simp, by simp⟩
    · intro hd
      subst hd
      refine ⟨by simp, ?_⟩
      intro k b hb
      simp at hb
      exact cachePut_not_mem_downloadLoop _ _ _ _ _ hb
    · exact lt_of_append_split isReadChunk isCachePut _ _ hPread hQ
    · exact lt_of_append_split isSetPkg isCachePut _ _ hPpkg hQ

/-- C1 witness: concrete cache-miss download of two chunks with the persist
flag set — the package is the full concatenated buffer and the store gains
exactly that entry. -/
theorem c1_cache_miss_load_witness :
    (initializeWasmer "9.9" true [] (Except.ok ⟨some 2, some [[5], [6]]⟩)).pkg =
      some (concatChunks (respChunks ⟨some 2, some [[5], [6]]⟩)) ∧
    (initializeWasmer "9.9" true [] (Except.ok ⟨some 2, some [[5], [6]]⟩)).cache =
      cachePutOp [] "9.9" (concatChunks (respChunks ⟨some 2, some [[5], [6]]⟩)) :=
  ⟨((c1_cache_miss_load "9.9" true [] (Except.ok ⟨some 2, some [[5], [6]]⟩) rfl).2
      ⟨some 2, some [[5], [6]]⟩ rfl).1,
   (((c1_cache_miss_load "9.9" true [] (Except.ok ⟨some 2, some [[5], [6]]⟩) rfl).2
      ⟨some 2, some [[5], [6]]⟩ rfl).2.1 rfl).1⟩

end R2Web

namespace R2Web

/-- Helper: filtering out a value absent from the list changes nothing. -/
theorem filter_ne_of_not_mem (l : List Nat) (id : Nat) (h : id ∉ l) :
    l.filter (fun t => t ≠ id) = l := by
  refine List.filter_eq_self.mpr ?_
  intro a ha
  simp
  exact fun e => h (e ▸ ha)

/-- Helper: on a duplicate-free list, filtering out one member removes
exactly one element. -/
theorem length_filter_ne (l : List Nat) (id : Nat) (hnd : l.Nodup) (hmem : id ∈ l) :
    (l.filter (fun t => t ≠ id)).length = l.length - 1 := by
  induction l with
  | nil => cases hmem
  | cons a as ih =>
    rcases List.nodup_cons.mp hnd with ⟨hna, hnd2⟩
    by_cases ha : a = id
    · subst ha
      rw [List.filter_cons_of_neg (by simp), filter_ne_of_not_mem as a hna]
      simp
    · have hmem2 : id ∈ as := by
        rcases List.mem_cons.mp hmem with h | h
        · exact absurd h.symm ha
        · exact h
      rw [List.filter_cons_of_pos (by simp [ha]), List.length_cons, List.length_cons,
        ih hnd2 hmem2]
      have hpos : 0 < as.length := List.length_pos.mpr (List.ne_nil_of_mem hmem2)
      omega

/-- Helper: the index search is within bounds when it succeeds. -/
theorem idxOf?_lt_length : ∀ (l : List Nat) (x i : Nat), idxOf? l x = some i → i < l.length
  | [], x, i => by simp [idxOf?]
  | a :: as, x, i => by
    intro h
    rw [List.length_cons]
    by_cases ha : a = x
    · rw [idxOf?, if_pos ha] at h
      cases h
      omega
    · rw [idxOf?, if_neg ha] at h
      rcases Option.map_eq_some'.mp h with ⟨j, hj, hji⟩
      have := idxOf?_lt_length as x j hj
      omega

/-- Helper: the index search succeeds on members. -/
theorem idxOf?_of_mem : ∀ (l : List Nat) (x : Nat), x ∈ l → ∃ i, idxOf? l x = some i
  | [], x => by simp
  | a :: as, x => by
    intro hmem
    by_cases ha : a = x
    · exact ⟨0, by simp [idxOf?, ha]⟩
    · rcases List.mem_cons.mp hmem with h | h2
      · exact absurd h.symm ha
      · rcases idxOf?_of_mem as x h2 with ⟨i, hi⟩
        exact ⟨i + 1, by simp [idxOf?, ha, hi]⟩

/-- Helper: the first occurrence after a clean prefix sits right after it. -/
theorem idxOf?_append_cons : ∀ (l₁ : List Nat) (x : Nat) (l₂ : List Nat), x ∉ l₁ →
    idxOf? (l₁ ++ x :: l₂) x = some l₁.length
  | [], x, l₂ => by simp [idxOf?]
  | a :: l₁, x, l₂ => by
    intro h
    have ha : a ≠ x := fun e => h (e ▸ List.mem_cons_self a l₁)
    have h1 : x ∉ l₁ := fun hx => h (List.mem_cons_of_mem a hx)
    simp [idxOf?, ha, idxOf?_append_cons l₁ x l₂ h1]

end R2Web

namespace R2Web

/-- C4 counterexample: after opening three tabs (ids 0,1,2, active 2),
closing the non-last tab 1 leaves two tabs but the active tab is still 2,
not the tab 0 immediately preceding the closed one in the prior order. -/
theorem c4_counterexample :
    applyOps initTabState [TabOp.openOp, TabOp.openOp] = ⟨[0, 1, 2], some 2⟩ ∧
    applyOps initTabState [TabOp.openOp, TabOp.openOp, TabOp.closeOp 1] =
      ⟨[0, 2], some 2⟩ ∧
    (⟨[0, 2], some 2⟩ : TabState).active ≠ some 0 := by
  refine ⟨by decide, by decide, by decide⟩

/-- C4 (amended): closing a tab removes exactly it from the ordered set; if
the closed tab was active, the new active tab is the member immediately
before it in the prior order when one exists, otherwise the member
immediately after it (when the closed tab was first), or none when the set
empties; if the closed tab was NOT active, the active tab is unchanged — so
after opening N tabs (active = last) and closing a non-last tab, N−1 tabs
remain with the active tab still the last, not the predecessor. -/
theorem c4_close_tab_spec (st : TabState) (id : Nat) (l₁ l₂ : List Nat)
    (hsplit : st.tabs = l₁ ++ id :: l₂) (hnd : st.tabs.Nodup) :
    (closeTab st id).tabs = l₁ ++ l₂ ∧
    (st.active ≠ some id → (closeTab st id).active = st.active) ∧
    (st.active = some id → l₁ ≠ [] →
      (closeTab st id).active = l₁.get? (l₁.length - 1)) ∧
    (st.active = some id → l₁ = [] → (closeTab st id).active = l₂.get? 0) := by
  have hnd2 := hnd
  rw [hsplit] at hnd2
  rcases List.nodup_append.mp hnd2 with ⟨hnd1, hndc, hdisj⟩
  have hid1 : id ∉ l₁ := fun h => hdisj h (List.mem_cons_self id l₂)
  have hid2 : id ∉ l₂ := (List.nodup_cons.mp hndc).1
  have hrem : st.tabs.filter (fun tid => tid ≠ id) = l₁ ++ l₂ := by
    rw [hsplit, List.filter_append, List.filter_cons_of_neg (by simp),
      filter_ne_of_not_mem l₁ id hid1, filter_ne_of_not_mem l₂ id hid2]
  have hidx : jsIndexOf st.tabs id = (l₁.length : Int) := by
    rw [hsplit, jsIndexOf, idxOf?_append_cons l₁ id l₂ hid1]
  have hcl : closeTab st id =
      (if st.active = some id then
        (if (l₁ ++ l₂).isEmpty then (⟨l₁ ++ l₂, none⟩ : TabState)
         else ⟨l₁ ++ l₂, (l₁ ++ l₂).get? (Int.toNat ((l₁.length : Int) - 1))⟩)
       else ⟨l₁ ++ l₂, st.active⟩) := by
    simp only [closeTab]
    rw [hrem, hidx]
  refine ⟨?_, ?_, ?_, ?_⟩
  · rw [hcl]
    by_cases ha : st.active = some id
    · rw [if_pos ha]
      by_cases he : (l₁ ++ l₂).isEmpty
      · rw [if_pos he]
      · rw [if_neg he]
    · rw [if_neg ha]
  · intro ha
    rw [hcl, if_neg ha]
  · intro ha hne
    have hlen1 : 0 < l₁.length := List.length_pos.mpr hne
    have he : ¬ ((l₁ ++ l₂).isEmpty = true) := by
      rcases l₁ with _ | ⟨b, bs⟩
      · cases hne rfl
      · simp
    have htn : Int.toNat ((l₁.length : Int) - 1) = l₁.length - 1 := by omega
    have hget : (l₁ ++ l₂).get? (l₁.length - 1) = l₁.get? (l₁.length - 1) :=
      List.get?_append (by omega)
    rw [hcl, if_pos ha, if_neg he]
    show (l₁ ++ l₂).get? (Int.toNat ((l₁.length : Int) - 1)) = l₁.get? (l₁.length - 1)
    rw [htn, hget]
  · intro ha hl1
    subst hl1
    by_cases he : l₂ = []
    · subst he
      rw [hcl, if_pos ha]
      simp
    · have hemp : ¬ ((([] : List Nat) ++ l₂).isEmpty = true) := by
        rcases l₂ with _ | ⟨b, bs⟩
        · cases he rfl
        · simp
      rw [hcl, if_pos ha, if_neg hemp]
      show (([] : List Nat) ++ l₂).get? (Int.toNat ((List.length ([] : List Nat) : Int) - 1)) =
        l₂.get? 0
      simp

/-- C4 witness: closing the active middle tab of `[0,1,2]` selects its
predecessor 0. -/
theorem c4_close_tab_spec_witness :
    (closeTab ⟨[0, 1, 2], some 1⟩ 1).tabs = [0] ++ [2] ∧
    (closeTab ⟨[0, 1, 2], some 1⟩ 1).active = [0].get? 0 :=
  ⟨(c4_close_tab_spec ⟨[0, 1, 2], some 1⟩ 1 [0] [2] rfl (by decide)).1,
   (c4_close_tab_spec ⟨[0, 1, 2], some 1⟩ 1 [0] [2] rfl (by decide)).2.2.1 rfl
     (by decide)⟩

end R2Web

namespace R2Web

/-- Helper: the seed of a max-fold bounds below its result. -/
theorem foldl_max_init : ∀ (l : List Nat) (a : Nat), a ≤ l.foldl max a
  | [], _ => Nat.le_refl _
  | b :: bs, a => Nat.le_trans (Nat.le_max_left a b) (foldl_max_init bs (max a b))

/-- Helper: every member of a list bounds below its max-fold. -/
theorem mem_le_foldl_max : ∀ (l : List Nat) (a : Nat), ∀ x ∈ l, x ≤ l.foldl max a
  | [], _, x => by simp
  | b :: bs, a, x => by
    intro hx
    rcases List.mem_cons.mp hx with rfl | h2
    · exact Nat.le_trans (Nat.le_max_right a x) (foldl_max_init bs (max a x))
    · exact mem_le_foldl_max bs (max a b) x h2

/-- Helper: the id assigned by the open handler exceeds every current id. -/
theorem openNextId_gt (st : TabState) : ∀ x ∈ st.tabs, x < openNextId st := by
  intro x hx
  have hne : st.tabs.isEmpty = false := by
    cases h : st.tabs.isEmpty
    · rfl
    · exact absurd ((List.isEmpty_iff.mp h) ▸ hx) (List.not_mem_nil x)
  rw [openNextId, hne]
  simp only [Bool.false_eq_true, if_false]
  exact Nat.lt_succ_of_le (mem_le_foldl_max st.tabs 0 x hx)

/-- C5 counterexample: the initial registry owns tab id 0; closing it empties
the set and the next open assigns id 0 again — an identifier of a previously
closed tab is reassigned, contradicting never-reuse after all tabs closed. -/
theorem c5_counterexample :
    initTabState.tabs = [0] ∧
    applyOps initTabState [TabOp.closeOp 0] = ⟨[], none⟩ ∧
    applyOps initTabState [TabOp.closeOp 0, TabOp.openOp] = ⟨[0], some 0⟩ := by
  refine ⟨rfl, by decide, by decide⟩

/-- C5 (amended): every open appends an id strictly greater than every id
currently in the set (hence fresh for the current set) and makes it active;
but the counter is only `max(current) + 1`, so once the greatest id leaves
the set — in particular after all tabs are closed, when the counter restarts
at 0 — previously assigned ids can be reused. -/
theorem c5_open_assigns_fresh (st : TabState) :
    (openTab st).tabs = st.tabs ++ [openNextId st] ∧
    (openTab st).active = some (openNextId st) ∧
    (∀ x ∈ st.tabs, x < openNextId st) ∧
    openNextId st ∉ st.tabs := by
  refine ⟨rfl, rfl, openNextId_gt st, ?_⟩
  intro hmem
  exact Nat.lt_irrefl _ (openNextId_gt st _ hmem)

/-- C5 witness: opening on the registry `[0,2]` assigns the fresh id 3,
strictly greater than the member 0. -/
theorem c5_open_assigns_fresh_witness :
    (openTab ⟨[0, 2], some 2⟩).tabs = [0, 2] ++ [openNextId ⟨[0, 2], some 2⟩] ∧
    (0 : Nat) < openNextId ⟨[0, 2], some 2⟩ :=
  ⟨(c5_open_assigns_fresh ⟨[0, 2], some 2⟩).1,
   (c5_open_assigns_fresh ⟨[0, 2], some 2⟩).2.2.1 0 (by decide)⟩

end R2Web

namespace R2Web

/-- Helper: an in-range lookup produces a member. -/
theorem get?_some_mem (l : List Nat) (k : Nat) (hk : k < l.length) :
    ∃ x, l.get? k = some x ∧ x ∈ l :=
  ⟨l.get ⟨k, hk⟩, List.get?_eq_get hk, List.get_mem l k hk⟩

/-- Helper: the open handler preserves registry consistency. -/
theorem tabInv_openTab (st : TabState) (h : tabInv st) : tabInv (openTab st) := by
  rcases h with ⟨hnd, _, _⟩
  refine ⟨?_, ?_, ?_⟩
  · refine List.nodup_append.mpr ⟨hnd, List.nodup_singleton _, ?_⟩
    intro a ha hb
    rw [List.mem_singleton] at hb
    subst hb
    exact Nat.lt_irrefl _ (openNextId_gt st _ ha)
  · intro hcontra
    exact absurd hcontra (by simp [openTab])
  · intro _
    exact ⟨openNextId st, rfl, by simp [openTab]⟩

/-- Helper: the close handler preserves registry consistency. -/
theorem tabInv_closeTab (st : TabState) (id : Nat) (hmem : id ∈ st.tabs)
    (h : tabInv st) : tabInv (closeTab st id) := by
  rcases h with ⟨hnd, _, hact⟩
  have hndf : (st.tabs.filter (fun tid => tid ≠ id)).Nodup := hnd.filter _
  have hlenf : (st.tabs.filter (fun tid => tid ≠ id)).length = st.tabs.length - 1 :=
    length_filter_ne st.tabs id hnd hmem
  by_cases ha : st.active = some id
  · by_cases he : (st.tabs.filter (fun tid => tid ≠ id)).isEmpty = true
    · have hcl : closeTab st id = ⟨st.tabs.filter (fun tid => tid ≠ id), none⟩ := by
        simp only [closeTab]
        rw [if_pos ha, if_pos he]
      rw [hcl]
      exact ⟨hndf, fun _ => rfl, fun hne => absurd (List.isEmpty_iff.mp he) hne⟩
    · rcases idxOf?_of_mem st.tabs id hmem with ⟨i, hi⟩
      have hilt : i < st.tabs.length := idxOf?_lt_length st.tabs id i hi
      have hflen : 0 < (st.tabs.filter (fun tid => tid ≠ id)).length := by
        rcases hq : st.tabs.filter (fun tid => tid ≠ id) with _ | ⟨b, bs⟩
        · rw [hq] at he
          exact absurd rfl he
        · simp
      have hidx : jsIndexOf st.tabs id = (i : Int) := by rw [jsIndexOf, hi]
      have hk : Int.toNat ((i : Int) - 1) < (st.tabs.filter (fun tid => tid ≠ id)).length := by
        omega
      rcases get?_some_mem _ _ hk with ⟨x, hx, hxm⟩
      have hcl : closeTab st id =
          ⟨st.tabs.filter (fun tid => tid ≠ id),
           (st.tabs.filter (fun tid => tid ≠ id)).get? (Int.toNat ((i : Int) - 1))⟩ := by
        simp only [closeTab]
        rw [hidx, if_pos ha, if_neg he]
      rw [hcl]
      refine ⟨hndf, ?_, ?_⟩
      · intro hcontra
        have hc2 : st.tabs.filter (fun tid => tid ≠ id) = [] := hcontra
        rw [hc2] at hflen
        simp at hflen
      · intro _
        exact ⟨x, by rw [hx], hxm⟩
  · have hcl : closeTab st id = ⟨st.tabs.filter (fun tid => tid ≠ id), st.active⟩ := by
      simp only [closeTab]
      rw [if_neg ha]
    rcases hact (List.ne_nil_of_mem hmem) with ⟨a, haa, ham⟩
    have hane : a ≠ id := fun e => ha (e ▸ haa)
    have hamf : a ∈ st.tabs.filter (fun tid => tid ≠ id) :=
      List.mem_filter.mpr ⟨ham, by simp [hane]⟩
    rw [hcl]
    refine ⟨hndf, ?_, ?_⟩
    · intro hcontra
      have hc2 : st.tabs.filter (fun tid => tid ≠ id) = [] := hcontra
      rw [hc2] at hamf
      cases hamf
    · intro _
      exact ⟨a, haa, hamf⟩

/-- Helper: direct selection of a member preserves registry consistency. -/
theorem tabInv_selectTab (st : TabState) (id : Nat) (hmem : id ∈ st.tabs)
    (h : tabInv st) : tabInv (selectTab st id) := by
  rcases h with ⟨hnd, _, _⟩
  exact ⟨hnd, fun hcontra => absurd (hcontra ▸ hmem) (List.not_mem_nil id),
    fun _ => ⟨id, rfl, hmem⟩⟩

/-- Helper: the numeric shortcut preserves registry consistency. -/
theorem tabInv_numericShortcut (st : TabState) (num : Nat) (h : tabInv st) :
    tabInv (numericShortcut st num) := by
  rcases h with ⟨hnd, hemp, hact⟩
  by_cases hg : 1 ≤ num ∧ num ≤ 9
  · by_cases he : st.tabs.isEmpty = true
    · have hcl : numericShortcut st num = ⟨st.tabs, none⟩ := by
        simp only [numericShortcut]
        rw [if_pos hg, if_pos he]
      rw [hcl]
      exact ⟨hnd, fun _ => rfl, fun hne => absurd (List.isEmpty_iff.mp he) hne⟩
    · have hlen : 0 < st.tabs.length := by
        cases hq : st.tabs.isEmpty
        · cases hq2 : st.tabs with
          | nil => rw [hq2] at hq; cases hq
          | cons b bs => simp [hq2]
        · exact absurd hq he
      have hk : min (num - 1) (st.tabs.length - 1) < st.tabs.length := by omega
      rcases get?_some_mem _ _ hk with ⟨x, hx, hxm⟩
      have hcl : numericShortcut st num =
          ⟨st.tabs, st.tabs.get? (min (num - 1) (st.tabs.length - 1))⟩ := by
        simp only [numericShortcut]
        rw [if_pos hg, if_neg he]
      rw [hcl]
      refine ⟨hnd, ?_, ?_⟩
      · intro hcontra
        have hc2 : st.tabs = [] := hcontra
        rw [hc2] at hlen
        cases hlen
      · intro _
        exact ⟨x, by rw [hx], hxm⟩
  · have hcl : numericShortcut st num = st := by
      simp only [numericShortcut]
      rw [if_neg hg]
    rw [hcl]
    exact ⟨hnd, hemp, hact⟩

/-- Helper: the cyclic-next shortcut preserves registry consistency. -/
theorem tabInv_nextTab (st : TabState) (h : tabInv st) : tabInv (nextTab st) := by
  rcases h with ⟨hnd, hemp, hact⟩
  by_cases he : st.tabs.isEmpty = true
  · have hcl : nextTab st = ⟨st.tabs, none⟩ := by
      simp only [nextTab]
      rw [if_pos he]
    rw [hcl]
    exact ⟨hnd, fun _ => rfl, fun hne => absurd (List.isEmpty_iff.mp he) hne⟩
  · have hlen : 0 < st.tabs.length := by
      cases hq2 : st.tabs with
      | nil => exact absurd (by rw [hq2]; rfl) he
      | cons b bs => simp [hq2]
    have hnn : (0 : Int) ≤ (activeIndex st + 1) % (st.tabs.length : Int) :=
      Int.emod_nonneg _ (by omega)
    have hlt : (activeIndex st + 1) % (st.tabs.length : Int) < (st.tabs.length : Int) :=
      Int.emod_lt_of_pos _ (by omega)
    have hk : Int.toNat ((activeIndex st + 1) % (st.tabs.length : Int)) < st.tabs.length := by
      omega
    rcases get?_some_mem _ _ hk with ⟨x, hx, hxm⟩
    have hcl : nextTab st =
        ⟨st.tabs, st.tabs.get? (Int.toNat ((activeIndex st + 1) % (st.tabs.length : Int)))⟩ := by
      simp only [nextTab]
      rw [if_neg he]
    rw [hcl]
    refine ⟨hnd, ?_, ?_⟩
    · intro hcontra
      have hc2 : st.tabs = [] := hcontra
      rw [hc2] at hlen
      cases hlen
    · intro _
      exact ⟨x, by rw [hx], hxm⟩

/-- Helper: the cyclic-previous shortcut preserves registry consistency. -/
theorem tabInv_prevTab (st : TabState) (h : tabInv st) : tabInv (prevTab st) := by
  rcases h with ⟨hnd, hemp, hact⟩
  by_cases he : st.tabs.isEmpty = true
  · have hcl : prevTab st = ⟨st.tabs, none⟩ := by
      simp only [prevTab]
      rw [if_pos he]
    rw [hcl]
    exact ⟨hnd, fun _ => rfl, fun hne => absurd (List.isEmpty_iff.mp he) hne⟩
  · have hlen : 0 < st.tabs.length := by
      cases hq2 : st.tabs with
      | nil => exact absurd (by rw [hq2]; rfl) he
      | cons b bs => simp [hq2]
    have hnn : (0 : Int) ≤ (activeIndex st - 1 + (st.tabs.length : Int)) % (st.tabs.length : Int) :=
      Int.emod_nonneg _ (by omega)
    have hlt : (activeIndex st - 1 + (st.tabs.length : Int)) % (st.tabs.length : Int) <
        (st.tabs.length : Int) :=
      Int.emod_lt_of_pos _ (by omega)
    have hk : Int.toNat ((activeIndex st - 1 + (st.tabs.length : Int)) %
        (st.tabs.length : Int)) < st.tabs.length := by
      omega
    rcases get?_some_mem _ _ hk with ⟨x, hx, hxm⟩
    have hcl : prevTab st =
        ⟨st.tabs, st.tabs.get? (Int.toNat ((activeIndex st - 1 + (st.tabs.length : Int)) %
          (st.tabs.length : Int)))⟩ := by
      simp only [prevTab]
      rw [if_neg he]
    rw [hcl]
    refine ⟨hnd, ?_, ?_⟩
    · intro hcontra
      have hc2 : st.tabs = [] := hcontra
      rw [hc2] at hlen
      cases hlen
    · intro _
      exact ⟨x, by rw [hx], hxm⟩

/-- Helper: one guarded UI event preserves registry consistency. -/
theorem tabInv_step (st : TabState) (op : TabOp) (h : tabInv st) :
    tabInv (if opValid st op then applyOp st op else st) := by
  by_cases hv : opValid st op = true
  · rw [if_pos hv]
    cases op with
    | openOp => exact tabInv_openTab st h
    | closeOp id =>
      exact tabInv_closeTab st id (of_decide_eq_true hv) h
    | selectOp id =>
      exact tabInv_selectTab st id (of_decide_eq_true hv) h
    | numericOp num => exact tabInv_numericShortcut st num h
    | nextOp => exact tabInv_nextTab st h
    | prevOp => exact tabInv_prevTab st h
  · rw [if_neg hv]
    exact h

/-- Helper: any guarded UI event sequence preserves registry consistency. -/
theorem tabInv_applyOps : ∀ (ops : List TabOp) (st : TabState), tabInv st →
    tabInv (applyOps st ops)
  | [], _, h => h
  | op :: ops, st, h =>
    tabInv_applyOps ops (if opValid st op then applyOp st op else st) (tabInv_step st op h)

/-- Helper: the initial registry is consistent. -/
theorem tabInv_init : tabInv initTabState :=
  ⟨by decide, by simp [initTabState], fun _ => ⟨0, rfl, by simp [initTabState]⟩⟩

/-- C9: after any sequence of tab-registry operations (open, close, direct
selection, numeric shortcut, cyclic next/previous) from the initial registry,
a non-empty tab set has an active identifier that is exactly one member of
the set, and an empty tab set has active `none`. -/
theorem c9_active_membership (ops : List TabOp) :
    ((applyOps initTabState ops).tabs = [] → (applyOps initTabState ops).active = none) ∧
    ((applyOps initTabState ops).tabs ≠ [] →
      ∃ a, (applyOps initTabState ops).active = some a ∧
        a ∈ (applyOps initTabState ops).tabs) := by
  have h := tabInv_applyOps ops initTabState tabInv_init
  exact ⟨h.2.1, h.2.2⟩

/-- C9 witness: closing the only tab empties the registry and the active
identifier becomes none; opening again yields a member active tab. -/
theorem c9_active_membership_witness :
    (applyOps initTabState [TabOp.closeOp 0]).active = none :=
  (c9_active_membership [TabOp.closeOp 0]).1 (by decide)

end R2Web

namespace R2Web

/-- Helper: one wiring call leaves exactly one attached handler — the fresh
one — whether the registry was empty or already in the one-attached shape. -/
theorem connectStreamsReg_shape (st : HandlerState) (instId : Nat)
    (h : (st.handlers = [] ∧ st.stored = none) ∨
      (∃ pre i0, st.handlers = pre ++ [(i0, true)] ∧ (∀ p ∈ pre, p.2 = false) ∧
        st.stored = some pre.length)) :
    ∃ pre, (connectStreamsReg st instId).handlers = pre ++ [(instId, true)] ∧
      (∀ p ∈ pre, p.2 = false) ∧
      (connectStreamsReg st instId).stored = some pre.length := by
  rcases h with ⟨h1, h2⟩ | ⟨pre, i0, h1, h2, h3⟩
  · exact ⟨[], by simp [connectStreamsReg, h1, h2], by simp, by simp [connectStreamsReg, h1, h2]⟩
  · have hget : (pre ++ [(i0, true)]).get? pre.length = some (i0, true) :=
      List.get?_concat_length pre (i0, true)
    have hset : (pre ++ [(i0, true)]).set pre.length (i0, false) = pre ++ [(i0, false)] := by
      rw [List.set_append_right _ _ (Nat.le_refl _)]
      simp
    refine ⟨pre ++ [(i0, false)], ?_, ?_, ?_⟩
    · simp [connectStreamsReg, h1, h3, hget, hset]
    · intro p hp
      rcases List.mem_append.mp hp with hp1 | hp2
      · exact h2 p hp1
      · rw [List.mem_singleton] at hp2
        subst hp2
        rfl
    · simp [connectStreamsReg, h1, h3, hget, hset]

/-- Helper: the head-default view of the last element of a cons. -/
theorem getLast?_getD_cons (j i0 : Nat) (ids : List Nat) :
    ((j :: ids).getLast?).getD i0 = (ids.getLast?).getD j := by
  cases ids with
  | nil => rfl
  | cons k ks =>
    rw [List.getLast?_cons_cons]
    rcases hq : (k :: ks).getLast? with _ | x
    · exact absurd hq (by simp)
    · rfl

/-- Helper: folding wiring calls from the one-attached shape keeps the shape,
targeting the last instance wired (or the previous one when no call). -/
theorem foldl_connect_shape : ∀ (ids : List Nat) (st : HandlerState) (i0 : Nat)
    (pre : List (Nat × Bool)),
    st.handlers = pre ++ [(i0, true)] → (∀ p ∈ pre, p.2 = false) →
    st.stored = some pre.length →
    ∃ pre2, (ids.foldl connectStreamsReg st).handlers =
        pre2 ++ [((ids.getLast?).getD i0, true)] ∧
      (∀ p ∈ pre2, p.2 = false) ∧
      (ids.foldl connectStreamsReg st).stored = some pre2.length
  | [], st, i0, pre, h1, h2, h3 => ⟨pre, by simpa using h1, h2, by simpa using h3⟩
  | j :: ids, st, i0, pre, h1, h2, h3 => by
    rcases connectStreamsReg_shape st j (Or.inr ⟨pre, i0, h1, h2, h3⟩) with ⟨pre2, g1, g2, g3⟩
    rcases foldl_connect_shape ids (connectStreamsReg st j) j pre2 g1 g2 g3 with
      ⟨pre3, f1, f2, f3⟩
    refine ⟨pre3, ?_, f2, ?_⟩
    · rw [List.foldl_cons, f1, getLast?_getD_cons]
    · rw [List.foldl_cons, f3]

/-- Helper: in the one-attached shape the keystroke targets are exactly the
attached handler's instance. -/
theorem forwardTargets_of_shape (st : HandlerState) (pre : List (Nat × Bool)) (i : Nat)
    (h1 : st.handlers = pre ++ [(i, true)]) (h2 : ∀ p ∈ pre, p.2 = false) :
    forwardTargets st = [i] := by
  rw [forwardTargets, h1, List.filter_append]
  have hf : pre.filter (fun h => h.2) = [] := by
    refine List.filter_eq_nil_iff.mpr ?_
    intro p hp
    simp [h2 p hp]
  rw [hf]
  simp

/-- C10: in the multi-tab variant, every wiring call first disposes the
previously registered input handler, so after the initial wiring and any
number of restarts at most one keystroke handler is attached per terminal at
any instant, and after at least one wiring call a keystroke is forwarded to
exactly one stdin — that of the newest instance. -/
theorem c10_single_handler (ids : List Nat) (h : ids ≠ []) :
    (∀ ids2 : List Nat,
      (forwardTargets (ids2.foldl connectStreamsReg initHandlerState)).length ≤ 1) ∧
    forwardTargets (ids.foldl connectStreamsReg initHandlerState) = [ids.getLast h] := by
  constructor
  · intro ids2
    cases ids2 with
    | nil => simp [forwardTargets, initHandlerState]
    | cons j rest =>
      rcases connectStreamsReg_shape initHandlerState j (Or.inl ⟨rfl, rfl⟩) with
        ⟨pre2, g1, g2, g3⟩
      rcases foldl_connect_shape rest (connectStreamsReg initHandlerState j) j pre2
        g1 g2 g3 with ⟨pre3, f1, f2, f3⟩
      rw [List.foldl_cons, forwardTargets_of_shape _ pre3 _ f1 f2]
      simp
  · cases ids with
    | nil => exact absurd rfl h
    | cons j rest =>
      rcases connectStreamsReg_shape initHandlerState j (Or.inl ⟨rfl, rfl⟩) with
        ⟨pre2, g1, g2, g3⟩
      rcases foldl_connect_shape rest (connectStreamsReg initHandlerState j) j pre2
        g1 g2 g3 with ⟨pre3, f1, f2, f3⟩
      rw [List.foldl_cons, forwardTargets_of_shape _ pre3 _ f1 f2]
      have hgl : (j :: rest).getLast? = some ((j :: rest).getLast h) :=
        List.getLast?_eq_getLast (j :: rest) h
      have heq : ((j :: rest).getLast?).getD 0 = (rest.getLast?).getD j :=
        getLast?_getD_cons j 0 rest
      rw [hgl] at heq
      simp at heq
      rw [← heq]

/-- C10 witness: wiring instance 4 and then, after a restart, instance 9
leaves exactly one attached handler forwarding to instance 9. -/
theorem c10_single_handler_witness :
    forwardTargets (List.foldl connectStreamsReg initHandlerState [4, 9]) = [9] := by
  have h := (c10_single_handler [4, 9] (by decide)).2
  simpa using h

end R2Web
